import Mathlib

/-!
sqlite_service: the asynchronous open of `services::sqlite::database`.

A shallow embedding of `include/sqlite_service/service.hpp`.

* The engine (`sqlite3_open`, `sqlite3_close`) is external and blocking.  It is a
  parameter of the model: `sqlite3_open` is an arbitrary function of everything
  observed so far and of the url, so each call may return any status and any handle.
* `boost::asio::io_service` is external.  It is modelled as a FIFO of handlers
  together with a count of live `io_service::work` objects and a stopped flag;
  `post` appends, `stop` makes the event loop return without dispatching what is
  still queued, and destroying an `io_service` destroys the handlers left in it.
* Threads are modelled by interleaving.  The processing thread advances through a
  task one statement at a time (dequeue, `sqlite3_open`, `conn_.reset`,
  `io_service_.post`, return) and the destructor one statement at a time (`stop`,
  `join`, destruction of `conn_`, destruction of `processing_service_`), so `stop`
  may fall before, inside or after the task in progress.  A schedule is an arbitrary
  list of such events; an event that is not enabled leaves the state unchanged.
-/

namespace services.sqlite

/-! ## Engine constants (sqlite3.h) -/

/-- The engine status `SQLITE_OK` of sqlite3.h. -/
def SQLITE_OK : Int := 0

/-- The engine status `SQLITE_NOMEM` of sqlite3.h. -/
def SQLITE_NOMEM : Int := 7

/-- A `struct sqlite3 *`: an address, `0` being the null pointer. -/
abbrev handle := Nat

/-- The null pointer. -/
def NULL : handle := 0

/-! ## boost::system::error_code -/

/-- The error categories in play: the system category, which a default-constructed
`error_code` has, and the category of this library. -/
inductive error_category where
  | system_category
  | sqlite_category
deriving DecidableEq, Repr

/-- Modelled from the spec: `get_error_category()` is declared in
`sqlite_service/detail/error.hpp`, which is absent; it is the category of the
Error Mapper, under which engine status codes are classified. -/
def get_error_category : error_category := error_category.sqlite_category

/-- A `boost::system::error_code`: a value and a category. -/
structure error_code where
  value : Int
  category : error_category
deriving DecidableEq, Repr

/-- The default-constructed `error_code`: value 0 in the system category. -/
def error_code.default : error_code := ⟨0, error_category.system_category⟩

/-- The method `error_code::assign(val, cat)`. -/
def error_code.assign (_ec : error_code) (val : Int) (cat : error_category) : error_code :=
  ⟨val, cat⟩

/-- The conversion of an `error_code` to `bool`: true when it holds an error. -/
def error_code.failed (ec : error_code) : Bool := ec.value != 0

/-! ## Handlers, observations and the two io_services -/

/-- A task bound by `async_open` and queued on `processing_service_`.  `id` is the
submission index of the request (ghost); the bound `shared_ptr<work>` is accounted
for in the work count of the caller's io_service. -/
structure task where
  id : Nat
  url : String
  handler : Nat
deriving DecidableEq, Repr

/-- The handler `boost::bind(handler, ec)` posted to the caller's io_service. -/
structure completion where
  id : Nat
  handler : Nat
  ec : error_code
deriving DecidableEq, Repr

/-- What can be observed of a run, in the order it happens. -/
inductive obs where
  | work_acquired (id : Nat)
  | enqueued (id : Nat) (url : String)
  | dequeued (id : Nat)
  | sqlite3_open_call (id : Nat) (url : String) (result : Int) (conn : handle)
  | sqlite3_close_call (conn : handle)
  | posted (id : Nat) (ec : error_code)
  | work_released (id : Nat)
  | invoked (id : Nat) (ec : error_code)
  | stopped
  | joined
deriving DecidableEq, Repr

/-- A `boost::asio::io_service` holding handlers of type `α`. -/
structure io_service (α : Type) where
  handlers : List α
  work : Nat
  stopped : Bool

/-- The method `io_service::post`: the handler is queued, never run inside the call. -/
def io_service.post {α : Type} (svc : io_service α) (h : α) : io_service α :=
  { svc with handlers := svc.handlers ++ [h] }

/-- The method `io_service::stop`. -/
def io_service.stop {α : Type} (svc : io_service α) : io_service α :=
  { svc with stopped := true }

/-- Construction of an `io_service::work` on the service. -/
def io_service.work_started {α : Type} (svc : io_service α) : io_service α :=
  { svc with work := svc.work + 1 }

/-- Destruction of `n` `io_service::work` objects of the service. -/
def io_service.work_finished {α : Type} (svc : io_service α) (n : Nat) : io_service α :=
  { svc with work := svc.work - n }

/-- The outstanding work of an io_service: live work objects and queued handlers.
Its event loop runs out of work exactly when this is zero. -/
def io_service.outstanding {α : Type} (svc : io_service α) : Nat :=
  svc.work + svc.handlers.length

/-- The engine's open call: status and handle, as a function of the history and the url. -/
abbrev engine := List obs → String → Int × handle

/-! ## The database object -/

/-- Where the processing thread stands: waiting in `processing_service_.run()`, or
inside `__async_open` for a task: before the call of `sqlite3_open`, after it with
the outcome in `result` and `conn`, after `conn_.reset`, or after `io_service_.post`
and before the return. -/
inductive worker_pc where
  | idle
  | taken (t : task)
  | opened (t : task) (result : Int) (conn : handle)
  | reset_done (t : task) (result : Int) (conn : handle)
  | posted (t : task)
deriving DecidableEq, Repr

/-- How far the destructor has come: not called, after `processing_service_.stop()`,
after `processing_thread_.join()`, after the destruction of `conn_`, after the
destruction of `processing_service_`. -/
inductive lifetime where
  | alive
  | stopped
  | joined
  | conn_destroyed
  | destroyed
deriving DecidableEq, Repr

/-- The class `database`, with the caller's io_service it refers to.
`conn_` is `none` for an empty `shared_ptr` and `some p` when it owns `p` with the
deleter `sqlite3_close`. -/
structure database where
  io_service_ : io_service completion
  processing_service_ : io_service task
  processing_thread_ : worker_pc
  conn_ : Option handle
  life : lifetime
  next_id : Nat
  trace : List obs

/-- The constructor: `processing_work_` keeps the processing thread busy. -/
def database.init : database :=
  { io_service_ := ⟨[], 0, false⟩
    processing_service_ := ⟨[], 1, false⟩
    processing_thread_ := worker_pc.idle
    conn_ := none
    life := lifetime.alive
    next_id := 0
    trace := [] }

/-- The task the processing thread is running, if any. -/
def worker_pc.task : worker_pc → Option task
  | worker_pc.idle => none
  | worker_pc.taken t => some t
  | worker_pc.opened t _ _ => some t
  | worker_pc.reset_done t _ _ => some t
  | worker_pc.posted t => some t

/-- The request whose `__async_open` is in progress: its `work` argument is alive. -/
def database.executing (s : database) : Option Nat :=
  s.processing_thread_.task.map task.id

/-- Whether `processing_thread_.join()` has returned. -/
def database.joined (s : database) : Bool :=
  s.life = lifetime.joined ∨ s.life = lifetime.conn_destroyed ∨ s.life = lifetime.destroyed

/-- Whether the destructor has finished. -/
def database.destroyed (s : database) : Bool :=
  s.life = lifetime.destroyed

/-- The pointer `conn_.get()`. -/
def database.conn_get (s : database) : handle := s.conn_.getD NULL

/-- The error code computed by `__async_open` from the outcome of `sqlite3_open`. -/
def open_error_code (result : Int) (conn : handle) : error_code :=
  let ec := error_code.default
  let ec := if result ≠ SQLITE_OK then ec.assign result get_error_category else ec
  let ec := if conn = NULL then ec.assign SQLITE_NOMEM get_error_category else ec
  ec

/-- The call `conn_.reset(conn, &sqlite3_close)`: the pointer owned before, if any,
is given to its deleter. -/
def database.conn_reset (s : database) (conn : handle) : database :=
  { s with
    conn_ := some conn
    trace := s.trace ++ (s.conn_.toList.map obs.sqlite3_close_call) }

/-- The body of `__async_open`, up to and including `io_service_.post`, run without
interruption. -/
def database.__async_open (eng : engine) (s : database) (t : task) : database :=
  let r := eng s.trace t.url
  let result := r.1
  let conn := r.2
  let s := { s with trace := s.trace ++ [obs.sqlite3_open_call t.id t.url result conn] }
  let ec := open_error_code result conn
  let s := s.conn_reset conn
  { s with
    io_service_ := s.io_service_.post ⟨t.id, t.handler, ec⟩
    trace := s.trace ++ [obs.posted t.id ec] }

/-- The method `async_open`: the work object is made while the arguments of `post`
are evaluated, then the bound task is posted to `processing_service_`. -/
def database.async_open (s : database) (url : String) (handler : Nat) : database :=
  let s := { s with
    io_service_ := s.io_service_.work_started
    trace := s.trace ++ [obs.work_acquired s.next_id] }
  { s with
    processing_service_ := s.processing_service_.post ⟨s.next_id, url, handler⟩
    next_id := s.next_id + 1
    trace := s.trace ++ [obs.enqueued s.next_id url] }

/-- One turn of `run_wrapper`: `processing_service_.run()` takes the next task from
the queue, unless the service is stopped or a task is in progress. -/
def database.run_wrapper (s : database) : database :=
  if s.processing_service_.stopped = true ∨ s.processing_thread_ ≠ worker_pc.idle then s
  else
    match s.processing_service_.handlers with
    | [] => s
    | t :: rest =>
      { s with
        processing_service_ := { s.processing_service_ with handlers := rest }
        processing_thread_ := worker_pc.taken t
        trace := s.trace ++ [obs.dequeued t.id] }

/-- The statement `result = sqlite3_open(url.c_str(), &conn)` of the task in progress. -/
def database.task_open (eng : engine) (s : database) : database :=
  match s.processing_thread_ with
  | worker_pc.taken t =>
    let r := eng s.trace t.url
    { s with
      processing_thread_ := worker_pc.opened t r.1 r.2
      trace := s.trace ++ [obs.sqlite3_open_call t.id t.url r.1 r.2] }
  | _ => s

/-- The statement `conn_.reset(conn, &sqlite3_close)` of the task in progress. -/
def database.task_reset (s : database) : database :=
  match s.processing_thread_ with
  | worker_pc.opened t result conn =>
    { s.conn_reset conn with processing_thread_ := worker_pc.reset_done t result conn }
  | _ => s

/-- The statement `io_service_.post(boost::bind(handler, ec))` of the task in progress. -/
def database.task_post (s : database) : database :=
  match s.processing_thread_ with
  | worker_pc.reset_done t result conn =>
    { s with
      io_service_ := s.io_service_.post ⟨t.id, t.handler, open_error_code result conn⟩
      processing_thread_ := worker_pc.posted t
      trace := s.trace ++ [obs.posted t.id (open_error_code result conn)] }
  | _ => s

/-- The return of `__async_open`: its `work` argument is destroyed. -/
def database.task_return (s : database) : database :=
  match s.processing_thread_ with
  | worker_pc.posted t =>
    { s with
      io_service_ := s.io_service_.work_finished 1
      processing_thread_ := worker_pc.idle
      trace := s.trace ++ [obs.work_released t.id] }
  | _ => s

/-- The caller's io_service runs one queued completion. -/
def database.caller_run_one (s : database) : database :=
  match s.io_service_.handlers with
  | [] => s
  | c :: rest =>
    { s with
      io_service_ := { s.io_service_ with handlers := rest }
      trace := s.trace ++ [obs.invoked c.id c.ec] }

/-- The first statement of the destructor, `processing_service_.stop()`. -/
def database.stop (s : database) : database :=
  { s with
    processing_service_ := s.processing_service_.stop
    life := lifetime.stopped
    trace := s.trace ++ [obs.stopped] }

/-- The second statement of the destructor, `processing_thread_.join()`: it returns
once the thread has left `run`, which it does when no task is in progress; until
then the call blocks. -/
def database.join (s : database) : database :=
  if s.processing_thread_ = worker_pc.idle then
    { s with life := lifetime.joined, trace := s.trace ++ [obs.joined] }
  else s

/-- Destruction of the member `conn_`. -/
def database.conn_destroy (s : database) : database :=
  { s with
    conn_ := none
    life := lifetime.conn_destroyed
    trace := s.trace ++ (s.conn_.toList.map obs.sqlite3_close_call) }

/-- Destruction of the member `processing_service_`: the tasks still queued are
destroyed without being run, which destroys the work objects bound in them. -/
def database.processing_service_destroy (s : database) : database :=
  { s with
    io_service_ := s.io_service_.work_finished s.processing_service_.handlers.length
    processing_service_ := { s.processing_service_ with handlers := [], work := 0 }
    life := lifetime.destroyed
    trace := s.trace ++ (s.processing_service_.handlers.map (fun t => obs.work_released t.id)) }

/-! ## Schedules -/

/-- The atomic events of the caller thread (`async_open`, `caller_run_one`, the four
statements of the destructor) and of the processing thread (the five `worker_` ones). -/
inductive event where
  | async_open (url : String) (handler : Nat)
  | worker_take
  | worker_open
  | worker_reset
  | worker_post
  | worker_return
  | caller_run_one
  | destroy_stop
  | destroy_join
  | destroy_conn
  | destroy_processing_service
deriving DecidableEq, Repr

/-- One event.  The methods of the object are not called once its destructor has
begun, and the statements of the destructor run in their order. -/
def step (eng : engine) (s : database) : event → database
  | event.async_open url handler =>
    if s.life = lifetime.alive then s.async_open url handler else s
  | event.worker_take => s.run_wrapper
  | event.worker_open => s.task_open eng
  | event.worker_reset => s.task_reset
  | event.worker_post => s.task_post
  | event.worker_return => s.task_return
  | event.caller_run_one => s.caller_run_one
  | event.destroy_stop => if s.life = lifetime.alive then s.stop else s
  | event.destroy_join => if s.life = lifetime.stopped then s.join else s
  | event.destroy_conn => if s.life = lifetime.joined then s.conn_destroy else s
  | event.destroy_processing_service =>
    if s.life = lifetime.conn_destroyed then s.processing_service_destroy else s

/-- The state after a schedule, from a state. -/
def run_from (eng : engine) (s : database) (evs : List event) : database :=
  evs.foldl (step eng) s

/-- The state after a schedule, from construction. -/
def run (eng : engine) (evs : List event) : database :=
  run_from eng database.init evs

/-- A schedule that takes the destructor from its call to its end: `stop`, then the
task in progress runs to its return, then `join` and the destruction of the members. -/
def teardown : List event :=
  [event.destroy_stop, event.worker_open, event.worker_reset, event.worker_post,
   event.worker_return, event.destroy_join, event.destroy_conn,
   event.destroy_processing_service]

/-! ## Projections of the trace -/

/-- The requests enqueued, in order. -/
def enqueued_ids : List obs → List Nat
  | [] => []
  | obs.enqueued id _ :: t => id :: enqueued_ids t
  | _ :: t => enqueued_ids t

/-- The requests taken from the queue by the processing thread, in order. -/
def dequeued_ids : List obs → List Nat
  | [] => []
  | obs.dequeued id :: t => id :: dequeued_ids t
  | _ :: t => dequeued_ids t

/-- The requests whose engine open call was made, in order. -/
def open_ids : List obs → List Nat
  | [] => []
  | obs.sqlite3_open_call id _ _ _ :: t => id :: open_ids t
  | _ :: t => open_ids t

/-- The requests whose completion was posted to the caller's io_service, in order. -/
def posted_ids : List obs → List Nat
  | [] => []
  | obs.posted id _ :: t => id :: posted_ids t
  | _ :: t => posted_ids t

/-- The requests whose completion was invoked by the caller, in order. -/
def invoked_ids : List obs → List Nat
  | [] => []
  | obs.invoked id _ :: t => id :: invoked_ids t
  | _ :: t => invoked_ids t

/-- The engine open calls (`true`) and the posts of completions (`false`), in order. -/
def worker_order : List obs → List (Bool × Nat)
  | [] => []
  | obs.sqlite3_open_call id _ _ _ :: t => (true, id) :: worker_order t
  | obs.posted id _ :: t => (false, id) :: worker_order t
  | _ :: t => worker_order t

/-- The handles returned by the engine's open calls, in order. -/
def opened_handles : List obs → List handle
  | [] => []
  | obs.sqlite3_open_call _ _ _ conn :: t => conn :: opened_handles t
  | _ :: t => opened_handles t

/-- The handles given to `sqlite3_close`, in order. -/
def closed_handles : List obs → List handle
  | [] => []
  | obs.sqlite3_close_call conn :: t => conn :: closed_handles t
  | _ :: t => closed_handles t

/-- An engine whose open always returns the same outcome. -/
def engine_const (result : Int) (conn : handle) : engine := fun _ _ => (result, conn)

/-- The completion that `__async_open` posts for a task. -/
def posted_completion (eng : engine) (s : database) (t : task) : completion :=
  ⟨t.id, t.handler, open_error_code (eng s.trace t.url).1 (eng s.trace t.url).2⟩

/-- The engine open call and the post of one executed request. -/
def open_then_post (id : Nat) : List (Bool × Nat) := [(true, id), (false, id)]

/-- The request dequeued whose engine call is still to be made. -/
def worker_pc.pending_open : worker_pc → List Nat
  | worker_pc.taken t => [t.id]
  | _ => []

/-- The request whose engine call is made and whose completion is still to be posted. -/
def worker_pc.pending_post : worker_pc → List Nat
  | worker_pc.opened t _ _ => [t.id]
  | worker_pc.reset_done t _ _ => [t.id]
  | _ => []

/-- The handle returned by the engine and not yet stored in `conn_`. -/
def worker_pc.pending_reset : worker_pc → List handle
  | worker_pc.opened _ _ conn => [conn]
  | _ => []

/-- What holds of every state a schedule can reach. -/
structure Inv (s : database) : Prop where
  enq : enqueued_ids s.trace = List.range s.next_id
  queue : s.life ≠ lifetime.destroyed →
    dequeued_ids s.trace ++ s.processing_service_.handlers.map task.id = enqueued_ids s.trace
  taken : ∃ rest, dequeued_ids s.trace ++ rest = enqueued_ids s.trace
  deq : dequeued_ids s.trace = open_ids s.trace ++ s.processing_thread_.pending_open
  opn : open_ids s.trace = posted_ids s.trace ++ s.processing_thread_.pending_post
  order : worker_order s.trace = (posted_ids s.trace).flatMap open_then_post
    ++ s.processing_thread_.pending_post.map (fun i => (true, i))
  delivered :
    invoked_ids s.trace ++ s.io_service_.handlers.map completion.id = posted_ids s.trace
  work : s.io_service_.work
    = s.processing_service_.handlers.length + (if s.executing.isSome then 1 else 0)
  handles : opened_handles s.trace
    = closed_handles s.trace ++ s.conn_.toList ++ s.processing_thread_.pending_reset
  called : ∀ t r c, (s.processing_thread_ = worker_pc.opened t r c
      ∨ s.processing_thread_ = worker_pc.reset_done t r c) →
    obs.sqlite3_open_call t.id t.url r c ∈ s.trace
  held : ∀ id, s.executing = some id → id ∈ dequeued_ids s.trace
  token : ∀ id, id ∈ enqueued_ids s.trace →
    id ∈ s.processing_service_.handlers.map task.id ∨ s.executing = some id
      ∨ obs.work_released id ∈ s.trace
  stopped_inv : s.life ≠ lifetime.alive → s.processing_service_.stopped = true
  seen_stopped : s.life ≠ lifetime.alive → obs.stopped ∈ s.trace
  joined_inv : s.joined = true → s.processing_thread_ = worker_pc.idle
  seen_joined : s.joined = true →
    ∃ a b c, s.trace = a ++ [obs.stopped] ++ b ++ [obs.joined] ++ c
  conn_inv : s.life = lifetime.conn_destroyed ∨ s.life = lifetime.destroyed → s.conn_ = none
  dead : s.life = lifetime.destroyed → s.processing_service_.handlers = []
  ec_queued : ∀ c ∈ s.io_service_.handlers, ∃ url result conn,
    obs.sqlite3_open_call c.id url result conn ∈ s.trace ∧ c.ec = open_error_code result conn
  ec_invoked : ∀ id ec, obs.invoked id ec ∈ s.trace → ∃ url result conn,
    obs.sqlite3_open_call id url result conn ∈ s.trace ∧ ec = open_error_code result conn

/-! ## Projections distribute over the growth of the trace -/

theorem enqueued_ids_append (a b : List obs) :
    enqueued_ids (a ++ b) = enqueued_ids a ++ enqueued_ids b := by
  induction a with
  | nil => rfl
  | cons o t ih => cases o <;> simp [enqueued_ids, ih]

theorem dequeued_ids_append (a b : List obs) :
    dequeued_ids (a ++ b) = dequeued_ids a ++ dequeued_ids b := by
  induction a with
  | nil => rfl
  | cons o t ih => cases o <;> simp [dequeued_ids, ih]

theorem open_ids_append (a b : List obs) :
    open_ids (a ++ b) = open_ids a ++ open_ids b := by
  induction a with
  | nil => rfl
  | cons o t ih => cases o <;> simp [open_ids, ih]

theorem posted_ids_append (a b : List obs) :
    posted_ids (a ++ b) = posted_ids a ++ posted_ids b := by
  induction a with
  | nil => rfl
  | cons o t ih => cases o <;> simp [posted_ids, ih]

theorem invoked_ids_append (a b : List obs) :
    invoked_ids (a ++ b) = invoked_ids a ++ invoked_ids b := by
  induction a with
  | nil => rfl
  | cons o t ih => cases o <;> simp [invoked_ids, ih]

theorem worker_order_append (a b : List obs) :
    worker_order (a ++ b) = worker_order a ++ worker_order b := by
  induction a with
  | nil => rfl
  | cons o t ih => cases o <;> simp [worker_order, ih]

theorem opened_handles_append (a b : List obs) :
    opened_handles (a ++ b) = opened_handles a ++ opened_handles b := by
  induction a with
  | nil => rfl
  | cons o t ih => cases o <;> simp [opened_handles, ih]

theorem closed_handles_append (a b : List obs) :
    closed_handles (a ++ b) = closed_handles a ++ closed_handles b := by
  induction a with
  | nil => rfl
  | cons o t ih => cases o <;> simp [closed_handles, ih]

theorem enqueued_ids_map_close (l : List handle) :
    enqueued_ids (l.map obs.sqlite3_close_call) = [] := by
  induction l with
  | nil => rfl
  | cons h t ih => simp [enqueued_ids, ih]

theorem dequeued_ids_map_close (l : List handle) :
    dequeued_ids (l.map obs.sqlite3_close_call) = [] := by
  induction l with
  | nil => rfl
  | cons h t ih => simp [dequeued_ids, ih]

theorem open_ids_map_close (l : List handle) :
    open_ids (l.map obs.sqlite3_close_call) = [] := by
  induction l with
  | nil => rfl
  | cons h t ih => simp [open_ids, ih]

theorem posted_ids_map_close (l : List handle) :
    posted_ids (l.map obs.sqlite3_close_call) = [] := by
  induction l with
  | nil => rfl
  | cons h t ih => simp [posted_ids, ih]

theorem invoked_ids_map_close (l : List handle) :
    invoked_ids (l.map obs.sqlite3_close_call) = [] := by
  induction l with
  | nil => rfl
  | cons h t ih => simp [invoked_ids, ih]

theorem worker_order_map_close (l : List handle) :
    worker_order (l.map obs.sqlite3_close_call) = [] := by
  induction l with
  | nil => rfl
  | cons h t ih => simp [worker_order, ih]

theorem opened_handles_map_close (l : List handle) :
    opened_handles (l.map obs.sqlite3_close_call) = [] := by
  induction l with
  | nil => rfl
  | cons h t ih => simp [opened_handles, ih]

theorem closed_handles_map_close (l : List handle) :
    closed_handles (l.map obs.sqlite3_close_call) = l := by
  induction l with
  | nil => rfl
  | cons h t ih => simp [closed_handles, ih]

theorem enqueued_ids_map_released (l : List task) :
    enqueued_ids (l.map (fun t => obs.work_released t.id)) = [] := by
  induction l with
  | nil => rfl
  | cons h t ih => simp [enqueued_ids, ih]

theorem dequeued_ids_map_released (l : List task) :
    dequeued_ids (l.map (fun t => obs.work_released t.id)) = [] := by
  induction l with
  | nil => rfl
  | cons h t ih => simp [dequeued_ids, ih]

theorem open_ids_map_released (l : List task) :
    open_ids (l.map (fun t => obs.work_released t.id)) = [] := by
  induction l with
  | nil => rfl
  | cons h t ih => simp [open_ids, ih]

theorem posted_ids_map_released (l : List task) :
    posted_ids (l.map (fun t => obs.work_released t.id)) = [] := by
  induction l with
  | nil => rfl
  | cons h t ih => simp [posted_ids, ih]

theorem invoked_ids_map_released (l : List task) :
    invoked_ids (l.map (fun t => obs.work_released t.id)) = [] := by
  induction l with
  | nil => rfl
  | cons h t ih => simp [invoked_ids, ih]

theorem worker_order_map_released (l : List task) :
    worker_order (l.map (fun t => obs.work_released t.id)) = [] := by
  induction l with
  | nil => rfl
  | cons h t ih => simp [worker_order, ih]

theorem opened_handles_map_released (l : List task) :
    opened_handles (l.map (fun t => obs.work_released t.id)) = [] := by
  induction l with
  | nil => rfl
  | cons h t ih => simp [opened_handles, ih]

theorem closed_handles_map_released (l : List task) :
    closed_handles (l.map (fun t => obs.work_released t.id)) = [] := by
  induction l with
  | nil => rfl
  | cons h t ih => simp [closed_handles, ih]

theorem mem_open_ids {tr : List obs} {id : Nat} {url : String} {r : Int} {c : handle}
    (h : obs.sqlite3_open_call id url r c ∈ tr) : id ∈ open_ids tr := by
  induction tr with
  | nil => simp at h
  | cons o t ih =>
    rcases List.mem_cons.mp h with h1 | h1
    · subst h1; simp [open_ids]
    · cases o <;> simp [open_ids, ih h1]

theorem open_call_unique {tr : List obs} (hn : (open_ids tr).Nodup) {id : Nat}
    {u1 u2 : String} {r1 r2 : Int} {c1 c2 : handle}
    (h1 : obs.sqlite3_open_call id u1 r1 c1 ∈ tr)
    (h2 : obs.sqlite3_open_call id u2 r2 c2 ∈ tr) : r1 = r2 ∧ c1 = c2 := by
  induction tr with
  | nil => simp at h1
  | cons o t ih =>
    rcases List.mem_cons.mp h1 with e1 | m1 <;> rcases List.mem_cons.mp h2 with e2 | m2
    · rw [← e1] at e2
      injection e2 with _ _ hr hc
      exact ⟨hr.symm, hc.symm⟩
    · subst e1
      simp only [open_ids, List.nodup_cons] at hn
      exact absurd (mem_open_ids m2) hn.1
    · subst e2
      simp only [open_ids, List.nodup_cons] at hn
      exact absurd (mem_open_ids m1) hn.1
    · refine ih ?_ m1 m2
      cases o <;> simp_all [open_ids]

theorem initial_segment_of_range {l rest : List Nat} {n : Nat} (h : l ++ rest = List.range n) :
    l = List.range l.length ∧ l.length ≤ n := by
  have hlen : l.length + rest.length = n := by
    have := congrArg List.length h
    simpa using this
  have hle : l.length ≤ n := by omega
  refine ⟨?_, hle⟩
  have ht : (l ++ rest).take l.length = l := by simp
  rw [h, List.take_range, Nat.min_eq_left hle] at ht
  exact ht.symm

theorem seen_joined_extend {tr : List obs} (suf : List obs)
    (h : ∃ a b c, tr = a ++ [obs.stopped] ++ b ++ [obs.joined] ++ c) :
    ∃ a b c, tr ++ suf = a ++ [obs.stopped] ++ b ++ [obs.joined] ++ c := by
  obtain ⟨a, b, c, hc⟩ := h
  exact ⟨a, b, c ++ suf, by rw [hc]; simp⟩

/-! ## Effect of the open task on the state -/

theorem __async_open_handlers (eng : engine) (s : database) (t : task) :
    (s.__async_open eng t).io_service_.handlers
      = s.io_service_.handlers ++ [posted_completion eng s t] := by
  simp [database.__async_open, database.conn_reset, io_service.post, posted_completion]

theorem __async_open_trace (eng : engine) (s : database) (t : task) :
    (s.__async_open eng t).trace
      = s.trace ++ ([obs.sqlite3_open_call t.id t.url (eng s.trace t.url).1 (eng s.trace t.url).2]
          ++ s.conn_.toList.map obs.sqlite3_close_call
          ++ [obs.posted t.id (open_error_code (eng s.trace t.url).1 (eng s.trace t.url).2)]) := by
  simp [database.__async_open, database.conn_reset]

theorem __async_open_work (eng : engine) (s : database) (t : task) :
    (s.__async_open eng t).io_service_.work = s.io_service_.work := by
  simp [database.__async_open, database.conn_reset, io_service.post]

theorem __async_open_conn (eng : engine) (s : database) (t : task) :
    (s.__async_open eng t).conn_ = some (eng s.trace t.url).2 := by
  simp [database.__async_open, database.conn_reset]

theorem open_error_code_failed (result : Int) (conn : handle) :
    (open_error_code result conn).failed = false ↔ result = SQLITE_OK ∧ conn ≠ NULL := by
  unfold open_error_code error_code.failed error_code.assign error_code.default
  by_cases h1 : result = SQLITE_OK <;> by_cases h2 : conn = NULL <;>
    simp_all [SQLITE_OK, SQLITE_NOMEM]

/-- The three statements of the task in progress, run one after the other from the
point where the task is taken, do what the body of `__async_open` does. -/
theorem task_statements_are___async_open (eng : engine) (s : database) (t : task)
    (h : s.processing_thread_ = worker_pc.taken t) :
    ((s.task_open eng).task_reset).task_post
      = { s.__async_open eng t with processing_thread_ := worker_pc.posted t } := by
  simp [database.task_open, database.task_reset, database.task_post, database.__async_open,
    database.conn_reset, h]

/-! ## The invariant is kept by every event -/

theorem Inv_init : Inv database.init := by
  constructor <;> simp [database.init, enqueued_ids, dequeued_ids, open_ids, posted_ids,
    worker_order, invoked_ids, opened_handles, closed_handles, worker_pc.pending_open,
    worker_pc.pending_post, worker_pc.pending_reset, database.executing, worker_pc.task,
    database.joined]

theorem Inv_async_open {s : database} (h : Inv s) (hl : s.life = lifetime.alive)
    (url : String) (handler : Nat) : Inv (s.async_open url handler) := by
  have hq := h.queue (by simp [hl])
  constructor
  · simp [database.async_open, enqueued_ids_append, enqueued_ids, h.enq, List.range_succ]
  · intro _
    simp [database.async_open, enqueued_ids_append, enqueued_ids, dequeued_ids_append,
      dequeued_ids, io_service.post, ← hq]
  · refine ⟨s.processing_service_.handlers.map task.id ++ [s.next_id], ?_⟩
    simp [database.async_open, enqueued_ids_append, enqueued_ids, dequeued_ids_append,
      dequeued_ids, ← hq]
  · simpa [database.async_open, dequeued_ids_append, dequeued_ids, open_ids_append, open_ids]
      using h.deq
  · simpa [database.async_open, posted_ids_append, posted_ids, open_ids_append, open_ids]
      using h.opn
  · simpa [database.async_open, worker_order_append, worker_order, posted_ids_append,
      posted_ids] using h.order
  · simpa [database.async_open, invoked_ids_append, invoked_ids, posted_ids_append, posted_ids,
      io_service.work_started] using h.delivered
  · have hw := h.work
    simp [database.async_open, io_service.work_started, io_service.post,
      database.executing] at hw ⊢
    omega
  · simpa [database.async_open, opened_handles_append, opened_handles, closed_handles_append,
      closed_handles] using h.handles
  · intro t r c hc
    have := h.called t r c (by simpa [database.async_open] using hc)
    simp [database.async_open, this]
  · intro id hid
    have := h.held id (by simpa [database.async_open, database.executing] using hid)
    simpa [database.async_open, dequeued_ids_append, dequeued_ids] using this
  · intro id hid
    simp only [database.async_open, enqueued_ids_append, enqueued_ids, List.append_nil,
      List.mem_append, List.mem_singleton] at hid
    rcases hid with hid | hid
    · rcases h.token id hid with h1 | h1 | h1
      · left; simp [database.async_open, io_service.post] at h1 ⊢; exact Or.inl h1
      · right; left; simpa [database.async_open, database.executing] using h1
      · right; right; simp [database.async_open, h1]
    · left; simp [database.async_open, io_service.post, hid]
  · intro hne
    exact absurd (by simpa [database.async_open] using hl) hne
  · intro hne
    exact absurd (by simpa [database.async_open] using hl) hne
  · intro hj
    simp [database.async_open, database.joined, hl] at hj
  · intro hj
    simp [database.async_open, database.joined, hl] at hj
  · intro hc
    simp [database.async_open, hl] at hc
  · intro hc
    simp [database.async_open, hl] at hc
  · intro c hc
    obtain ⟨u, r, cn, hm, he⟩ :=
      h.ec_queued c (by simpa [database.async_open, io_service.work_started] using hc)
    exact ⟨u, r, cn, by simp [database.async_open, hm], he⟩
  · intro id ec hm
    have hm2 : obs.invoked id ec ∈ s.trace := by
      simpa [database.async_open] using hm
    obtain ⟨u, r, cn, hm3, he⟩ := h.ec_invoked id ec hm2
    exact ⟨u, r, cn, by simp [database.async_open, hm3], he⟩

theorem run_wrapper_cases (s : database) :
    s.run_wrapper = s ∨
    ∃ t rest, s.processing_service_.stopped = false ∧ s.processing_thread_ = worker_pc.idle ∧
      s.processing_service_.handlers = t :: rest ∧
      s.run_wrapper =
        { s with
          processing_service_ := { s.processing_service_ with handlers := rest }
          processing_thread_ := worker_pc.taken t
          trace := s.trace ++ [obs.dequeued t.id] } := by
  unfold database.run_wrapper
  split
  · exact Or.inl rfl
  · rename_i hg
    have hs : s.processing_service_.stopped = false := by
      cases hx : s.processing_service_.stopped with
      | false => rfl
      | true => simp [hx] at hg
    have hp : s.processing_thread_ = worker_pc.idle := by
      by_contra hne
      exact hg (Or.inr hne)
    cases hh : s.processing_service_.handlers with
    | nil => exact Or.inl rfl
    | cons t rest => exact Or.inr ⟨t, rest, hs, hp, rfl, rfl⟩

theorem alive_of_not_stopped {s : database} (h : Inv s)
    (hs : s.processing_service_.stopped = false) : s.life = lifetime.alive := by
  by_contra hne
  have := h.stopped_inv hne
  rw [hs] at this
  exact absurd this (by simp)

theorem not_joined_of_busy {s : database} (h : Inv s)
    (hp : s.processing_thread_ ≠ worker_pc.idle) : s.joined = false := by
  cases hj : s.joined with
  | false => rfl
  | true => exact absurd (h.joined_inv hj) hp

theorem Inv_run_wrapper {s : database} (h : Inv s) : Inv s.run_wrapper := by
  rcases run_wrapper_cases s with h0 | ⟨t, rest, hst, hpc, hq, hrun⟩
  · rw [h0]; exact h
  · have hl := alive_of_not_stopped h hst
    have hqu := h.queue (by simp [hl])
    rw [hq] at hqu
    have hw := h.work
    have hdeq := h.deq
    have hopn := h.opn
    have hord := h.order
    have hhan := h.handles
    simp only [hq, hpc, database.executing, worker_pc.task, worker_pc.pending_open,
      worker_pc.pending_post, worker_pc.pending_reset] at hw hdeq hopn hord hhan
    rw [hrun]
    constructor
    · simpa [enqueued_ids_append, enqueued_ids] using h.enq
    · intro _
      simp [enqueued_ids_append, enqueued_ids, dequeued_ids_append, dequeued_ids, ← hqu]
    · refine ⟨rest.map task.id, ?_⟩
      simp [enqueued_ids_append, enqueued_ids, dequeued_ids_append, dequeued_ids, ← hqu]
    · simp [dequeued_ids_append, dequeued_ids, open_ids_append, open_ids,
        worker_pc.pending_open] at hdeq ⊢
      exact hdeq
    · simpa [open_ids_append, open_ids, posted_ids_append, posted_ids,
        worker_pc.pending_post] using hopn
    · simpa [worker_order_append, worker_order, posted_ids_append, posted_ids,
        worker_pc.pending_post] using hord
    · simpa [invoked_ids_append, invoked_ids, posted_ids_append, posted_ids] using h.delivered
    · simp [database.executing, worker_pc.task] at hw ⊢
      omega
    · simpa [opened_handles_append, opened_handles, closed_handles_append, closed_handles,
        worker_pc.pending_reset] using hhan
    · intro t2 r c hc
      simp at hc
    · intro id hid
      simp [database.executing, worker_pc.task] at hid
      simp [dequeued_ids_append, dequeued_ids, hid]
    · intro id hid
      have hid2 : id ∈ enqueued_ids s.trace := by
        simpa [enqueued_ids_append, enqueued_ids] using hid
      rcases h.token id hid2 with h1 | h1 | h1
      · rw [hq] at h1
        simp only [List.map_cons, List.mem_cons] at h1
        rcases h1 with h1 | h1
        · right; left; simp [database.executing, worker_pc.task, h1]
        · left; exact h1
      · simp [database.executing, worker_pc.task, hpc] at h1
      · right; right; simp [h1]
    · intro hne
      exact absurd hl hne
    · intro hne
      exact absurd hl hne
    · intro hj
      simp [database.joined, hl] at hj
    · intro hj
      simp [database.joined, hl] at hj
    · intro hc
      simp [hl] at hc
    · intro hc
      simp [hl] at hc
    · intro c hc
      obtain ⟨u, r, cn, hm, he⟩ := h.ec_queued c hc
      exact ⟨u, r, cn, by simp [hm], he⟩
    · intro id ec hm
      have hm2 : obs.invoked id ec ∈ s.trace := by simpa using hm
      obtain ⟨u, r, cn, hm3, he⟩ := h.ec_invoked id ec hm2
      exact ⟨u, r, cn, by simp [hm3], he⟩

theorem Inv_task_open {s : database} (h : Inv s) (eng : engine) : Inv (s.task_open eng) := by
  unfold database.task_open
  cases hpc : s.processing_thread_ with
  | taken t =>
    have hj := not_joined_of_busy h (by simp [hpc])
    have hw := h.work
    have hdeq := h.deq
    have hopn := h.opn
    have hord := h.order
    have hhan := h.handles
    simp only [hpc, database.executing, worker_pc.task, worker_pc.pending_open,
      worker_pc.pending_post, worker_pc.pending_reset] at hw hdeq hopn hord hhan
    constructor
    · simpa [enqueued_ids_append, enqueued_ids] using h.enq
    · intro hd
      simpa [enqueued_ids_append, enqueued_ids, dequeued_ids_append, dequeued_ids]
        using h.queue hd
    · simpa [enqueued_ids_append, enqueued_ids, dequeued_ids_append, dequeued_ids]
        using h.taken
    · simpa [dequeued_ids_append, dequeued_ids, open_ids_append, open_ids,
        worker_pc.pending_open] using hdeq
    · simpa [open_ids_append, open_ids, posted_ids_append, posted_ids,
        worker_pc.pending_post] using hopn
    · simpa [worker_order_append, worker_order, posted_ids_append, posted_ids,
        worker_pc.pending_post] using hord
    · simpa [invoked_ids_append, invoked_ids, posted_ids_append, posted_ids] using h.delivered
    · simpa [database.executing, worker_pc.task] using hw
    · simp [opened_handles_append, opened_handles, closed_handles_append, closed_handles,
        worker_pc.pending_reset, hhan]
    · intro t2 r c hc
      simp at hc
      obtain ⟨h1, h2, h3⟩ := hc
      subst h1; subst h2; subst h3
      simp
    · intro id hid
      have := h.held id (by simpa [database.executing, worker_pc.task, hpc] using hid)
      simpa [dequeued_ids_append, dequeued_ids] using this
    · intro id hid
      have hid2 : id ∈ enqueued_ids s.trace := by
        simpa [enqueued_ids_append, enqueued_ids] using hid
      rcases h.token id hid2 with h1 | h1 | h1
      · left; exact h1
      · right; left; simpa [database.executing, worker_pc.task, hpc] using h1
      · right; right; simp [h1]
    · intro hne
      exact h.stopped_inv hne
    · intro hne
      simp [h.seen_stopped hne]
    · intro hj2
      simp [database.joined] at hj2 hj
      simp [hj] at hj2
    · intro hj2
      simp [database.joined] at hj2 hj
      simp [hj] at hj2
    · intro hc
      exact h.conn_inv hc
    · intro hc
      exact h.dead hc
    · intro c hc
      obtain ⟨u, r, cn, hm, he⟩ := h.ec_queued c hc
      exact ⟨u, r, cn, by simp [hm], he⟩
    · intro id ec hm
      have hm2 : obs.invoked id ec ∈ s.trace := by simpa using hm
      obtain ⟨u, r, cn, hm3, he⟩ := h.ec_invoked id ec hm2
      exact ⟨u, r, cn, by simp [hm3], he⟩
  | idle => simpa [hpc] using h
  | opened t r c => simpa [hpc] using h
  | reset_done t r c => simpa [hpc] using h
  | posted t => simpa [hpc] using h

theorem Inv_task_reset {s : database} (h : Inv s) : Inv s.task_reset := by
  unfold database.task_reset
  cases hpc : s.processing_thread_ with
  | opened t r c =>
    have hj := not_joined_of_busy h (by simp [hpc])
    have hw := h.work
    have hdeq := h.deq
    have hopn := h.opn
    have hord := h.order
    have hhan := h.handles
    simp only [hpc, database.executing, worker_pc.task, worker_pc.pending_open,
      worker_pc.pending_post, worker_pc.pending_reset] at hw hdeq hopn hord hhan
    constructor
    · simpa [database.conn_reset, enqueued_ids_append, enqueued_ids_map_close] using h.enq
    · intro hd
      simpa [database.conn_reset, enqueued_ids_append, enqueued_ids_map_close,
        dequeued_ids_append, dequeued_ids_map_close] using h.queue hd
    · simpa [database.conn_reset, enqueued_ids_append, enqueued_ids_map_close,
        dequeued_ids_append, dequeued_ids_map_close] using h.taken
    · simpa [database.conn_reset, dequeued_ids_append, dequeued_ids_map_close,
        open_ids_append, open_ids_map_close, worker_pc.pending_open] using hdeq
    · simpa [database.conn_reset, open_ids_append, open_ids_map_close, posted_ids_append,
        posted_ids_map_close, worker_pc.pending_post] using hopn
    · simpa [database.conn_reset, worker_order_append, worker_order_map_close,
        posted_ids_append, posted_ids_map_close, worker_pc.pending_post] using hord
    · simpa [database.conn_reset, invoked_ids_append, invoked_ids_map_close,
        posted_ids_append, posted_ids_map_close] using h.delivered
    · simpa [database.conn_reset, database.executing, worker_pc.task] using hw
    · simp [database.conn_reset, opened_handles_append, opened_handles_map_close,
        closed_handles_append, closed_handles_map_close, worker_pc.pending_reset, hhan]
    · intro t2 r2 c2 hc
      simp at hc
      obtain ⟨h1, h2, h3⟩ := hc
      subst h1; subst h2; subst h3
      have := h.called t r c (Or.inl hpc)
      simp [database.conn_reset, this]
    · intro id hid
      have := h.held id (by simpa [database.conn_reset, database.executing, worker_pc.task, hpc]
        using hid)
      simpa [database.conn_reset, dequeued_ids_append, dequeued_ids_map_close] using this
    · intro id hid
      have hid2 : id ∈ enqueued_ids s.trace := by
        simpa [database.conn_reset, enqueued_ids_append, enqueued_ids_map_close] using hid
      rcases h.token id hid2 with h1 | h1 | h1
      · left; exact h1
      · right; left
        simpa [database.conn_reset, database.executing, worker_pc.task, hpc] using h1
      · right; right; simp [database.conn_reset, h1]
    · intro hne
      exact h.stopped_inv hne
    · intro hne
      simp [database.conn_reset, h.seen_stopped hne]
    · intro hj2
      simp [database.joined, database.conn_reset] at hj2 hj
      simp [hj] at hj2
    · intro hj2
      simp [database.joined, database.conn_reset] at hj2 hj
      simp [hj] at hj2
    · intro hc
      simp [database.joined] at hj
      simp [database.conn_reset] at hc
      rcases hc with hc | hc <;> simp [hc] at hj
    · intro hc
      exact h.dead hc
    · intro c2 hc
      obtain ⟨u, r2, cn, hm, he⟩ := h.ec_queued c2 hc
      exact ⟨u, r2, cn, by simp [database.conn_reset, hm], he⟩
    · intro id ec hm
      have hm2 : obs.invoked id ec ∈ s.trace := by
        simp only [database.conn_reset, List.mem_append, List.mem_map] at hm
        rcases hm with hm | ⟨x, _, hx⟩
        · exact hm
        · exact absurd hx (by simp)
      obtain ⟨u, r2, cn, hm3, he⟩ := h.ec_invoked id ec hm2
      exact ⟨u, r2, cn, by simp [database.conn_reset, hm3], he⟩
  | idle => simpa [hpc] using h
  | taken t => simpa [hpc] using h
  | reset_done t r c => simpa [hpc] using h
  | posted t => simpa [hpc] using h

theorem Inv_task_post {s : database} (h : Inv s) : Inv s.task_post := by
  unfold database.task_post
  cases hpc : s.processing_thread_ with
  | reset_done t r c =>
    have hj := not_joined_of_busy h (by simp [hpc])
    have hw := h.work
    have hdeq := h.deq
    have hopn := h.opn
    have hord := h.order
    have hhan := h.handles
    simp only [hpc, database.executing, worker_pc.task, worker_pc.pending_open,
      worker_pc.pending_post, worker_pc.pending_reset] at hw hdeq hopn hord hhan
    constructor
    · simpa [enqueued_ids_append, enqueued_ids] using h.enq
    · intro hd
      simpa [enqueued_ids_append, enqueued_ids, dequeued_ids_append, dequeued_ids]
        using h.queue hd
    · simpa [enqueued_ids_append, enqueued_ids, dequeued_ids_append, dequeued_ids]
        using h.taken
    · simpa [dequeued_ids_append, dequeued_ids, open_ids_append, open_ids,
        worker_pc.pending_open] using hdeq
    · simpa [open_ids_append, open_ids, posted_ids_append, posted_ids,
        worker_pc.pending_post] using hopn
    · simp [worker_order_append, worker_order, posted_ids_append, posted_ids,
        worker_pc.pending_post, hord, open_then_post]
    · simp [invoked_ids_append, invoked_ids, posted_ids_append, posted_ids, io_service.post,
        ← h.delivered]
    · simpa [database.executing, worker_pc.task, io_service.post] using hw
    · simpa [opened_handles_append, opened_handles, closed_handles_append, closed_handles,
        worker_pc.pending_reset] using hhan
    · intro t2 r2 c2 hc
      simp at hc
    · intro id hid
      have := h.held id (by simpa [database.executing, worker_pc.task, hpc] using hid)
      simpa [dequeued_ids_append, dequeued_ids] using this
    · intro id hid
      have hid2 : id ∈ enqueued_ids s.trace := by
        simpa [enqueued_ids_append, enqueued_ids] using hid
      rcases h.token id hid2 with h1 | h1 | h1
      · left; exact h1
      · right; left; simpa [database.executing, worker_pc.task, hpc] using h1
      · right; right; simp [h1]
    · intro hne
      exact h.stopped_inv hne
    · intro hne
      simp [h.seen_stopped hne]
    · intro hj2
      simp [database.joined] at hj2 hj
      simp [hj] at hj2
    · intro hj2
      simp [database.joined] at hj2 hj
      simp [hj] at hj2
    · intro hc
      exact h.conn_inv hc
    · intro hc
      exact h.dead hc
    · intro c2 hc
      simp only [io_service.post, List.mem_append, List.mem_singleton] at hc
      rcases hc with hc | hc
      · obtain ⟨u, r2, cn, hm, he⟩ := h.ec_queued c2 hc
        exact ⟨u, r2, cn, by simp [hm], he⟩
      · subst hc
        exact ⟨t.url, r, c, by simp [h.called t r c (Or.inr hpc)], rfl⟩
    · intro id ec hm
      have hm2 : obs.invoked id ec ∈ s.trace := by simpa using hm
      obtain ⟨u, r2, cn, hm3, he⟩ := h.ec_invoked id ec hm2
      exact ⟨u, r2, cn, by simp [hm3], he⟩
  | idle => simpa [hpc] using h
  | taken t => simpa [hpc] using h
  | opened t r c => simpa [hpc] using h
  | posted t => simpa [hpc] using h

theorem Inv_task_return {s : database} (h : Inv s) : Inv s.task_return := by
  unfold database.task_return
  cases hpc : s.processing_thread_ with
  | posted t =>
    have hj := not_joined_of_busy h (by simp [hpc])
    have hw := h.work
    have hdeq := h.deq
    have hopn := h.opn
    have hord := h.order
    have hhan := h.handles
    simp only [hpc, database.executing, worker_pc.task, worker_pc.pending_open,
      worker_pc.pending_post, worker_pc.pending_reset] at hw hdeq hopn hord hhan
    constructor
    · simpa [enqueued_ids_append, enqueued_ids] using h.enq
    · intro hd
      simpa [enqueued_ids_append, enqueued_ids, dequeued_ids_append, dequeued_ids]
        using h.queue hd
    · simpa [enqueued_ids_append, enqueued_ids, dequeued_ids_append, dequeued_ids]
        using h.taken
    · simpa [dequeued_ids_append, dequeued_ids, open_ids_append, open_ids,
        worker_pc.pending_open] using hdeq
    · simpa [open_ids_append, open_ids, posted_ids_append, posted_ids,
        worker_pc.pending_post] using hopn
    · simpa [worker_order_append, worker_order, posted_ids_append, posted_ids,
        worker_pc.pending_post] using hord
    · simpa [invoked_ids_append, invoked_ids, posted_ids_append, posted_ids,
        io_service.work_finished] using h.delivered
    · simp [database.executing, worker_pc.task, io_service.work_finished] at hw ⊢
      omega
    · simpa [opened_handles_append, opened_handles, closed_handles_append, closed_handles,
        worker_pc.pending_reset] using hhan
    · intro t2 r2 c2 hc
      simp at hc
    · intro id hid
      simp [database.executing, worker_pc.task] at hid
    · intro id hid
      have hid2 : id ∈ enqueued_ids s.trace := by
        simpa [enqueued_ids_append, enqueued_ids] using hid
      rcases h.token id hid2 with h1 | h1 | h1
      · left; exact h1
      · right; right
        simp [database.executing, worker_pc.task, hpc] at h1
        simp [h1]
      · right; right; simp [h1]
    · intro hne
      exact h.stopped_inv hne
    · intro hne
      simp [h.seen_stopped hne]
    · intro _
      rfl
    · intro hj2
      simp [database.joined] at hj2 hj
      simp [hj] at hj2
    · intro hc
      exact h.conn_inv hc
    · intro hc
      exact h.dead hc
    · intro c2 hc
      obtain ⟨u, r2, cn, hm, he⟩ :=
        h.ec_queued c2 (by simpa [io_service.work_finished] using hc)
      exact ⟨u, r2, cn, by simp [hm], he⟩
    · intro id ec hm
      have hm2 : obs.invoked id ec ∈ s.trace := by simpa using hm
      obtain ⟨u, r2, cn, hm3, he⟩ := h.ec_invoked id ec hm2
      exact ⟨u, r2, cn, by simp [hm3], he⟩
  | idle => simpa [hpc] using h
  | taken t => simpa [hpc] using h
  | opened t r c => simpa [hpc] using h
  | reset_done t r c => simpa [hpc] using h

theorem Inv_caller_run_one {s : database} (h : Inv s) : Inv s.caller_run_one := by
  unfold database.caller_run_one
  cases hx : s.io_service_.handlers with
  | nil => simpa using h
  | cons c rest =>
    have hdel := h.delivered
    rw [hx] at hdel
    have hc := h.ec_queued c (by simp [hx])
    constructor
    · simpa [enqueued_ids_append, enqueued_ids] using h.enq
    · intro hd
      simpa [enqueued_ids_append, enqueued_ids, dequeued_ids_append, dequeued_ids]
        using h.queue hd
    · simpa [enqueued_ids_append, enqueued_ids, dequeued_ids_append, dequeued_ids]
        using h.taken
    · simpa [dequeued_ids_append, dequeued_ids, open_ids_append, open_ids] using h.deq
    · simpa [open_ids_append, open_ids, posted_ids_append, posted_ids] using h.opn
    · simpa [worker_order_append, worker_order, posted_ids_append, posted_ids] using h.order
    · simpa [invoked_ids_append, invoked_ids, posted_ids_append, posted_ids] using hdel
    · simpa [database.executing] using h.work
    · simpa [opened_handles_append, opened_handles, closed_handles_append, closed_handles]
        using h.handles
    · intro t r cn hcall
      simp [h.called t r cn hcall]
    · intro id hid
      have := h.held id (by simpa [database.executing] using hid)
      simpa [dequeued_ids_append, dequeued_ids] using this
    · intro id hid
      have hid2 : id ∈ enqueued_ids s.trace := by
        simpa [enqueued_ids_append, enqueued_ids] using hid
      rcases h.token id hid2 with h1 | h1 | h1
      · left; exact h1
      · right; left; simpa [database.executing] using h1
      · right; right; simp [h1]
    · intro hne
      exact h.stopped_inv hne
    · intro hne
      simp [h.seen_stopped hne]
    · intro hj
      exact h.joined_inv (by simpa [database.joined] using hj)
    · intro hj
      have := seen_joined_extend [obs.invoked c.id c.ec]
        (h.seen_joined (by simpa [database.joined] using hj))
      simpa using this
    · intro hcd
      exact h.conn_inv hcd
    · intro hd
      exact h.dead hd
    · intro c2 hc2
      obtain ⟨url, r, cn, hm, he⟩ := h.ec_queued c2 (by
        rw [hx]; exact List.mem_cons_of_mem _ (by simpa using hc2))
      exact ⟨url, r, cn, by simp [hm], he⟩
    · intro i ec hm
      simp only [List.mem_append, List.mem_singleton, obs.invoked.injEq] at hm
      rcases hm with hm | ⟨h1, h2⟩
      · obtain ⟨url, r, cn, hm3, he⟩ := h.ec_invoked i ec hm
        exact ⟨url, r, cn, by simp [hm3], he⟩
      · obtain ⟨url, r, cn, hm3, he⟩ := hc
        subst h1; subst h2
        exact ⟨url, r, cn, by simp [hm3], he⟩

theorem Inv_stop {s : database} (h : Inv s) (hl : s.life = lifetime.alive) : Inv s.stop := by
  constructor
  · simpa [database.stop, enqueued_ids_append, enqueued_ids] using h.enq
  · intro _
    simpa [database.stop, io_service.stop, enqueued_ids_append, enqueued_ids,
      dequeued_ids_append, dequeued_ids] using h.queue (by simp [hl])
  · simpa [database.stop, enqueued_ids_append, enqueued_ids, dequeued_ids_append, dequeued_ids]
      using h.taken
  · simpa [database.stop, dequeued_ids_append, dequeued_ids, open_ids_append, open_ids]
      using h.deq
  · simpa [database.stop, open_ids_append, open_ids, posted_ids_append, posted_ids]
      using h.opn
  · simpa [database.stop, worker_order_append, worker_order, posted_ids_append, posted_ids]
      using h.order
  · simpa [database.stop, invoked_ids_append, invoked_ids, posted_ids_append, posted_ids]
      using h.delivered
  · simpa [database.stop, io_service.stop, database.executing] using h.work
  · simpa [database.stop, opened_handles_append, opened_handles, closed_handles_append,
      closed_handles] using h.handles
  · intro t r c hc
    simp [database.stop, h.called t r c (by simpa [database.stop] using hc)]
  · intro id hid
    have := h.held id (by simpa [database.stop, database.executing] using hid)
    simpa [database.stop, dequeued_ids_append, dequeued_ids] using this
  · intro id hid
    have hid2 : id ∈ enqueued_ids s.trace := by
      simpa [database.stop, enqueued_ids_append, enqueued_ids] using hid
    rcases h.token id hid2 with h1 | h1 | h1
    · left; simpa [database.stop, io_service.stop] using h1
    · right; left; simpa [database.stop, database.executing] using h1
    · right; right; simp [database.stop, h1]
  · intro _
    simp [database.stop, io_service.stop]
  · intro _
    simp [database.stop]
  · intro hj
    simp [database.stop, database.joined] at hj
  · intro hj
    simp [database.stop, database.joined] at hj
  · intro hc
    simp [database.stop] at hc
  · intro hc
    simp [database.stop] at hc
  · intro c hc
    obtain ⟨u, r, cn, hm, he⟩ := h.ec_queued c (by simpa [database.stop] using hc)
    exact ⟨u, r, cn, by simp [database.stop, hm], he⟩
  · intro id ec hm
    have hm2 : obs.invoked id ec ∈ s.trace := by simpa [database.stop] using hm
    obtain ⟨u, r, cn, hm3, he⟩ := h.ec_invoked id ec hm2
    exact ⟨u, r, cn, by simp [database.stop, hm3], he⟩

theorem Inv_join {s : database} (h : Inv s) (hl : s.life = lifetime.stopped) : Inv s.join := by
  unfold database.join
  split
  · rename_i hpc
    constructor
    · simpa [enqueued_ids_append, enqueued_ids] using h.enq
    · intro _
      simpa [enqueued_ids_append, enqueued_ids, dequeued_ids_append, dequeued_ids]
        using h.queue (by simp [hl])
    · simpa [enqueued_ids_append, enqueued_ids, dequeued_ids_append, dequeued_ids]
        using h.taken
    · simpa [dequeued_ids_append, dequeued_ids, open_ids_append, open_ids] using h.deq
    · simpa [open_ids_append, open_ids, posted_ids_append, posted_ids] using h.opn
    · simpa [worker_order_append, worker_order, posted_ids_append, posted_ids] using h.order
    · simpa [invoked_ids_append, invoked_ids, posted_ids_append, posted_ids]
        using h.delivered
    · simpa [database.executing] using h.work
    · simpa [opened_handles_append, opened_handles, closed_handles_append, closed_handles]
        using h.handles
    · intro t r c hc
      simp [h.called t r c hc]
    · intro id hid
      have := h.held id (by simpa [database.executing] using hid)
      simpa [dequeued_ids_append, dequeued_ids] using this
    · intro id hid
      have hid2 : id ∈ enqueued_ids s.trace := by
        simpa [enqueued_ids_append, enqueued_ids] using hid
      rcases h.token id hid2 with h1 | h1 | h1
      · left; exact h1
      · right; left; simpa [database.executing] using h1
      · right; right; simp [h1]
    · intro _
      exact h.stopped_inv (by simp [hl])
    · intro _
      simp [h.seen_stopped (by simp [hl])]
    · intro _
      exact hpc
    · intro _
      obtain ⟨a, b, hab⟩ := List.append_of_mem (h.seen_stopped (by simp [hl]))
      exact ⟨a, b, [], by simp [hab]⟩
    · intro hc
      simp at hc
    · intro hc
      simp at hc
    · intro c hc
      obtain ⟨u, r, cn, hm, he⟩ := h.ec_queued c hc
      exact ⟨u, r, cn, by simp [hm], he⟩
    · intro id ec hm
      have hm2 : obs.invoked id ec ∈ s.trace := by simpa using hm
      obtain ⟨u, r, cn, hm3, he⟩ := h.ec_invoked id ec hm2
      exact ⟨u, r, cn, by simp [hm3], he⟩
  · exact h

theorem Inv_conn_destroy {s : database} (h : Inv s) (hl : s.life = lifetime.joined) :
    Inv s.conn_destroy := by
  have hj : s.joined = true := by simp [database.joined, hl]
  have hpc := h.joined_inv hj
  have hhan := h.handles
  simp only [hpc, worker_pc.pending_reset, List.append_nil] at hhan
  constructor
  · simpa [database.conn_destroy, enqueued_ids_append, enqueued_ids_map_close] using h.enq
  · intro _
    simpa [database.conn_destroy, enqueued_ids_append, enqueued_ids_map_close,
      dequeued_ids_append, dequeued_ids_map_close] using h.queue (by simp [hl])
  · simpa [database.conn_destroy, enqueued_ids_append, enqueued_ids_map_close,
      dequeued_ids_append, dequeued_ids_map_close] using h.taken
  · simpa [database.conn_destroy, dequeued_ids_append, dequeued_ids_map_close,
      open_ids_append, open_ids_map_close] using h.deq
  · simpa [database.conn_destroy, open_ids_append, open_ids_map_close, posted_ids_append,
      posted_ids_map_close] using h.opn
  · simpa [database.conn_destroy, worker_order_append, worker_order_map_close,
      posted_ids_append, posted_ids_map_close] using h.order
  · simpa [database.conn_destroy, invoked_ids_append, invoked_ids_map_close,
      posted_ids_append, posted_ids_map_close] using h.delivered
  · simpa [database.conn_destroy, database.executing] using h.work
  · simp [database.conn_destroy, opened_handles_append, opened_handles_map_close,
      closed_handles_append, closed_handles_map_close, hpc, worker_pc.pending_reset, hhan]
  · intro t r c hc
    simp [database.conn_destroy, hpc] at hc
  · intro id hid
    simp [database.conn_destroy, database.executing, hpc, worker_pc.task] at hid
  · intro id hid
    have hid2 : id ∈ enqueued_ids s.trace := by
      simpa [database.conn_destroy, enqueued_ids_append, enqueued_ids_map_close] using hid
    rcases h.token id hid2 with h1 | h1 | h1
    · left; exact h1
    · right; left; simpa [database.conn_destroy, database.executing] using h1
    · right; right; simp [database.conn_destroy, h1]
  · intro _
    exact h.stopped_inv (by simp [hl])
  · intro _
    simp [database.conn_destroy, h.seen_stopped (by simp [hl])]
  · intro _
    exact hpc
  · intro _
    exact seen_joined_extend _ (h.seen_joined hj)
  · intro _
    rfl
  · intro hc
    simp [database.conn_destroy] at hc
  · intro c hc
    obtain ⟨u, r, cn, hm, he⟩ := h.ec_queued c hc
    exact ⟨u, r, cn, by simp [database.conn_destroy, hm], he⟩
  · intro id ec hm
    have hm2 : obs.invoked id ec ∈ s.trace := by
      simp only [database.conn_destroy, List.mem_append, List.mem_map] at hm
      rcases hm with hm | ⟨x, _, hx⟩
      · exact hm
      · exact absurd hx (by simp)
    obtain ⟨u, r, cn, hm3, he⟩ := h.ec_invoked id ec hm2
    exact ⟨u, r, cn, by simp [database.conn_destroy, hm3], he⟩

theorem Inv_processing_service_destroy {s : database} (h : Inv s)
    (hl : s.life = lifetime.conn_destroyed) : Inv s.processing_service_destroy := by
  have hj : s.joined = true := by simp [database.joined, hl]
  have hpc := h.joined_inv hj
  have hw := h.work
  simp only [database.executing, hpc, worker_pc.task] at hw
  constructor
  · simpa [database.processing_service_destroy, enqueued_ids_append,
      enqueued_ids_map_released] using h.enq
  · intro hne
    simp [database.processing_service_destroy] at hne
  · simpa [database.processing_service_destroy, enqueued_ids_append,
      enqueued_ids_map_released, dequeued_ids_append, dequeued_ids_map_released]
      using h.taken
  · simpa [database.processing_service_destroy, dequeued_ids_append,
      dequeued_ids_map_released, open_ids_append, open_ids_map_released] using h.deq
  · simpa [database.processing_service_destroy, open_ids_append, open_ids_map_released,
      posted_ids_append, posted_ids_map_released] using h.opn
  · simpa [database.processing_service_destroy, worker_order_append,
      worker_order_map_released, posted_ids_append, posted_ids_map_released] using h.order
  · simpa [database.processing_service_destroy, invoked_ids_append,
      invoked_ids_map_released, posted_ids_append, posted_ids_map_released,
      io_service.work_finished] using h.delivered
  · simp [database.processing_service_destroy, database.executing, hpc, worker_pc.task,
      io_service.work_finished] at hw ⊢
    omega
  · simpa [database.processing_service_destroy, opened_handles_append,
      opened_handles_map_released, closed_handles_append, closed_handles_map_released]
      using h.handles
  · intro t r c hc
    simp [database.processing_service_destroy, hpc] at hc
  · intro id hid
    simp [database.processing_service_destroy, database.executing, hpc, worker_pc.task] at hid
  · intro id hid
    have hid2 : id ∈ enqueued_ids s.trace := by
      simpa [database.processing_service_destroy, enqueued_ids_append,
        enqueued_ids_map_released] using hid
    right; right
    rcases h.token id hid2 with h1 | h1 | h1
    · simp only [List.mem_map] at h1
      obtain ⟨t, ht, hid3⟩ := h1
      simp only [database.processing_service_destroy, List.mem_append, List.mem_map]
      exact Or.inr ⟨t, ht, by rw [hid3]⟩
    · simp [database.executing, hpc, worker_pc.task] at h1
    · simp [database.processing_service_destroy, h1]
  · intro _
    simpa [database.processing_service_destroy] using h.stopped_inv (by simp [hl])
  · intro _
    simp [database.processing_service_destroy, h.seen_stopped (by simp [hl])]
  · intro _
    exact hpc
  · intro _
    exact seen_joined_extend _ (h.seen_joined hj)
  · intro _
    exact h.conn_inv (Or.inl hl)
  · intro _
    rfl
  · intro c hc
    obtain ⟨u, r, cn, hm, he⟩ := h.ec_queued c (by
      simpa [database.processing_service_destroy, io_service.work_finished] using hc)
    exact ⟨u, r, cn, by simp [database.processing_service_destroy, hm], he⟩
  · intro id ec hm
    have hm2 : obs.invoked id ec ∈ s.trace := by
      simp only [database.processing_service_destroy, List.mem_append, List.mem_map] at hm
      rcases hm with hm | ⟨x, _, hx⟩
      · exact hm
      · exact absurd hx (by simp)
    obtain ⟨u, r, cn, hm3, he⟩ := h.ec_invoked id ec hm2
    exact ⟨u, r, cn, by simp [database.processing_service_destroy, hm3], he⟩

theorem Inv_step {s : database} (h : Inv s) (eng : engine) (e : event) : Inv (step eng s e) := by
  cases e with
  | async_open url handler =>
    simp only [step]
    split
    · rename_i hl; exact Inv_async_open h hl url handler
    · exact h
  | worker_take => exact Inv_run_wrapper h
  | worker_open => exact Inv_task_open h eng
  | worker_reset => exact Inv_task_reset h
  | worker_post => exact Inv_task_post h
  | worker_return => exact Inv_task_return h
  | caller_run_one => exact Inv_caller_run_one h
  | destroy_stop =>
    simp only [step]
    split
    · rename_i hl; exact Inv_stop h hl
    · exact h
  | destroy_join =>
    simp only [step]
    split
    · rename_i hl; exact Inv_join h hl
    · exact h
  | destroy_conn =>
    simp only [step]
    split
    · rename_i hl; exact Inv_conn_destroy h hl
    · exact h
  | destroy_processing_service =>
    simp only [step]
    split
    · rename_i hl; exact Inv_processing_service_destroy h hl
    · exact h

theorem Inv_run_from {s : database} (h : Inv s) (eng : engine) (evs : List event) :
    Inv (run_from eng s evs) := by
  induction evs generalizing s with
  | nil => exact h
  | cons e t ih => exact ih (Inv_step h eng e)

theorem Inv_run (eng : engine) (evs : List event) : Inv (run eng evs) :=
  Inv_run_from Inv_init eng evs

theorem run_append (eng : engine) (evs evs2 : List event) :
    run eng (evs ++ evs2) = run_from eng (run eng evs) evs2 := by
  simp [run, run_from, List.foldl_append]

/-! ## Consequences of the invariant -/

theorem open_ids_nodup {s : database} (h : Inv s) : (open_ids s.trace).Nodup := by
  obtain ⟨rest, hr⟩ := h.taken
  have hn : (open_ids s.trace ++ (s.processing_thread_.pending_open ++ rest)).Nodup := by
    rw [← List.append_assoc, ← h.deq, hr, h.enq]; exact List.nodup_range _
  exact hn.of_append_left

theorem pending_post_cases (pc : worker_pc) :
    pc.pending_post = [] ∨ ∃ x, pc.pending_post = [x] := by
  cases pc <;> simp [worker_pc.pending_post]

theorem busy_of_pending {s : database} {id : Nat}
    (h : id ∈ s.processing_thread_.pending_open ∨ id ∈ s.processing_thread_.pending_post) :
    s.executing.isSome = true := by
  cases hpc : s.processing_thread_ <;>
    simp_all [worker_pc.pending_open, worker_pc.pending_post, database.executing,
      worker_pc.task]

theorem teardown_destroys (eng : engine) (s : database) :
    (run_from eng s teardown).life = lifetime.destroyed := by
  obtain ⟨io, ps, pc, conn, life, n, tr⟩ := s
  cases life <;> cases pc <;>
    simp [run_from, teardown, step, database.stop, database.task_open, database.task_reset,
      database.conn_reset, database.task_post, database.task_return, database.join,
      database.conn_destroy, database.processing_service_destroy]

/-! ## The claims -/

/-- C1: in every reachable state, if request `id` made the engine open call that
returned `(result, conn)` and the caller's handler of that request was invoked with
`ec`, then `ec` is "no error" (false as a boolean, value 0) if and only if `result`
is `SQLITE_OK` and `conn` is not null.  So an open of ":memory:" that returns
`SQLITE_OK` and a handle completes with a false error code. -/
theorem async_open_delivers_ok_iff (eng : engine) (evs : List event) (id : Nat)
    (url : String) (result : Int) (conn : handle) (ec : error_code)
    (hopen : obs.sqlite3_open_call id url result conn ∈ (run eng evs).trace)
    (hinv : obs.invoked id ec ∈ (run eng evs).trace) :
    (ec.failed = false ↔ result = SQLITE_OK ∧ conn ≠ NULL) ∧
    (ec.failed = false ↔ ec.value = 0) := by
  have hI := Inv_run eng evs
  obtain ⟨u, r, c, hm, he⟩ := hI.ec_invoked id ec hinv
  obtain ⟨hr, hc⟩ := open_call_unique (open_ids_nodup hI) hm hopen
  subst hr; subst hc; subst he
  exact ⟨open_error_code_failed r c, by simp [error_code.failed]⟩

theorem async_open_delivers_ok_iff_witness :
    obs.invoked 0 error_code.default ∈
      (run (engine_const SQLITE_OK 5)
        [event.async_open ":memory:" 0, event.worker_take, event.worker_open,
         event.worker_reset, event.worker_post, event.caller_run_one]).trace ∧
    (error_code.default.failed = false ↔ SQLITE_OK = SQLITE_OK ∧ (5 : handle) ≠ NULL) :=
  ⟨by decide,
   (async_open_delivers_ok_iff (engine_const SQLITE_OK 5)
      [event.async_open ":memory:" 0, event.worker_take, event.worker_open,
       event.worker_reset, event.worker_post, event.caller_run_one]
      0 ":memory:" SQLITE_OK 5 error_code.default (by decide) (by decide)).1⟩

/-- C2: every execution of `__async_open` appends exactly one handler to the caller's
io_service, the completion of the task it runs, whatever the engine returns: the
queue grows by one, and the trace gains one engine call followed by one post. -/
theorem async_open_task_posts_once (eng : engine) (s : database) (t : task) :
    (∃ ec : error_code, (s.__async_open eng t).io_service_.handlers
        = s.io_service_.handlers ++ [⟨t.id, t.handler, ec⟩]) ∧
    (s.__async_open eng t).io_service_.handlers.length = s.io_service_.handlers.length + 1 ∧
    worker_order (s.__async_open eng t).trace
        = worker_order s.trace ++ [(true, t.id), (false, t.id)] := by
  refine ⟨⟨_, __async_open_handlers eng s t⟩, ?_, ?_⟩
  · simp [__async_open_handlers]
  · simp [__async_open_trace, worker_order_append, worker_order, worker_order_map_close]

/-- C3: a call of `async_open` appends exactly one task to `processing_service_` and
acquires one work object on the caller's io_service; the caller's queue of
completions and `conn_` are unchanged, and the call makes no engine call and invokes
no handler. -/
theorem async_open_frame (s : database) (url : String) (handler : Nat) :
    (s.async_open url handler).processing_service_.handlers
      = s.processing_service_.handlers ++ [⟨s.next_id, url, handler⟩] ∧
    (s.async_open url handler).io_service_.work = s.io_service_.work + 1 ∧
    (s.async_open url handler).io_service_.handlers = s.io_service_.handlers ∧
    (s.async_open url handler).conn_ = s.conn_ ∧
    (s.async_open url handler).processing_thread_ = s.processing_thread_ ∧
    (s.async_open url handler).life = s.life ∧
    (s.async_open url handler).executing = s.executing ∧
    (s.async_open url handler).joined = s.joined ∧
    (s.async_open url handler).destroyed = s.destroyed ∧
    (s.async_open url handler).io_service_.stopped = s.io_service_.stopped ∧
    (s.async_open url handler).processing_service_.work = s.processing_service_.work ∧
    (s.async_open url handler).processing_service_.stopped = s.processing_service_.stopped ∧
    (s.async_open url handler).trace
      = s.trace ++ [obs.work_acquired s.next_id, obs.enqueued s.next_id url] ∧
    opened_handles (s.async_open url handler).trace = opened_handles s.trace ∧
    closed_handles (s.async_open url handler).trace = closed_handles s.trace ∧
    worker_order (s.async_open url handler).trace = worker_order s.trace ∧
    invoked_ids (s.async_open url handler).trace = invoked_ids s.trace := by
  simp [database.async_open, io_service.post, io_service.work_started,
    database.executing, database.joined, database.destroyed,
    opened_handles_append, opened_handles, closed_handles_append, closed_handles,
    worker_order_append, worker_order, invoked_ids_append, invoked_ids]

/-- C4: in every reachable state the requests are numbered in submission order
(`0, 1, ..., n-1`); the processing thread has made the engine open call of requests
`0, ..., k-1` and posted the completion of requests `0, ..., p-1`, one request after
the other in that order (the open of a request, then its post, then the open of the
next one, the last open being possibly not yet followed by its post); and the caller
has seen the completions of requests `0, ..., m-1` in that order, with `m ≤ p ≤ k ≤ n`.
So for A submitted before B, the open of A is finished and the completion of A posted
before the open of B begins, and A's completion is observed before B's. -/
theorem async_open_submission_order (eng : engine) (evs : List event) :
    ∃ k p m, m ≤ p ∧ p ≤ k ∧ k ≤ p + 1 ∧ k ≤ (run eng evs).next_id ∧
      enqueued_ids (run eng evs).trace = List.range (run eng evs).next_id ∧
      open_ids (run eng evs).trace = List.range k ∧
      posted_ids (run eng evs).trace = List.range p ∧
      worker_order (run eng evs).trace
        = (List.range p).flatMap open_then_post ++ (if p < k then [(true, p)] else []) ∧
      invoked_ids (run eng evs).trace = List.range m := by
  have hI := Inv_run eng evs
  obtain ⟨rest, hr⟩ := hI.taken
  rw [hI.enq, hI.deq, List.append_assoc] at hr
  obtain ⟨ho, hk⟩ := initial_segment_of_range hr
  have hopn := hI.opn
  rw [ho] at hopn
  obtain ⟨hp, hpk⟩ := initial_segment_of_range hopn.symm
  have hdel := hI.delivered
  rw [hp] at hdel
  obtain ⟨hi, hm⟩ := initial_segment_of_range hdel
  have hord := hI.order
  have hlen : (open_ids (run eng evs).trace).length
      = (posted_ids (run eng evs).trace).length
        + (run eng evs).processing_thread_.pending_post.length := by
    have := congrArg List.length hI.opn
    simpa using this
  rcases pending_post_cases (run eng evs).processing_thread_ with hpe | ⟨x, hpe⟩
  · rw [hpe] at hlen hord
    simp only [List.length_nil, Nat.add_zero] at hlen
    refine ⟨_, _, _, hm, hpk, by omega, hk, hI.enq, ho, hp, ?_, hi⟩
    rw [hord, ← hp]
    simp [hlen]
  · rw [hpe] at hlen hord hopn
    simp only [List.length_singleton] at hlen
    have hx : x = (posted_ids (run eng evs).trace).length := by
      rw [hlen, List.range_succ, ← hp] at hopn
      have := List.append_cancel_left hopn
      simpa using this.symm
    refine ⟨_, _, _, hm, hpk, by omega, hk, hI.enq, ho, hp, ?_, hi⟩
    rw [hord, ← hp, hlen, hx]
    simp

/-- C5 (as stated, refuted): the engine returns the non-success status 1 with a null
handle, and the error code posted carries `SQLITE_NOMEM`, not the status 1. -/
theorem open_failure_null_handle_loses_status :
    (engine_const 1 NULL [] "x").1 ≠ SQLITE_OK ∧
    (database.init.__async_open (engine_const 1 NULL) ⟨0, "x", 0⟩).io_service_.handlers
      = [⟨0, 0, ⟨SQLITE_NOMEM, get_error_category⟩⟩] ∧
    SQLITE_NOMEM ≠ (engine_const 1 NULL [] "x").1 := by
  decide

/-- C5 (amended): when the engine's open call reports a non-success status and
returns a non-null handle, the error code posted by `__async_open` is in the
category of `get_error_category()` and carries exactly that status; when the handle
is null the code posted carries `SQLITE_NOMEM`, whatever the status. -/
theorem open_failure_carries_status (eng : engine) (s : database) (t : task) :
    ((eng s.trace t.url).1 ≠ SQLITE_OK → (eng s.trace t.url).2 ≠ NULL →
      (s.__async_open eng t).io_service_.handlers
        = s.io_service_.handlers ++ [⟨t.id, t.handler, ⟨(eng s.trace t.url).1, get_error_category⟩⟩]) ∧
    ((eng s.trace t.url).2 = NULL →
      (s.__async_open eng t).io_service_.handlers
        = s.io_service_.handlers ++ [⟨t.id, t.handler, ⟨SQLITE_NOMEM, get_error_category⟩⟩]) := by
  constructor
  · intro h1 h2
    simp [__async_open_handlers, posted_completion, open_error_code, error_code.assign, h1, h2]
  · intro h2
    simp [__async_open_handlers, posted_completion, open_error_code, error_code.assign, h2]

theorem open_failure_carries_status_witness :
    ((engine_const 14 5 [] "/nonexistent/db").1 ≠ SQLITE_OK ∧
     (engine_const 14 5 [] "/nonexistent/db").2 ≠ NULL ∧
     (database.init.__async_open (engine_const 14 5)
        ⟨0, "/nonexistent/db", 0⟩).io_service_.handlers
       = [] ++ [⟨0, 0, ⟨14, get_error_category⟩⟩]) ∧
    ((engine_const 1 NULL [] "x").2 = NULL ∧
     (database.init.__async_open (engine_const 1 NULL) ⟨0, "x", 0⟩).io_service_.handlers
       = [] ++ [⟨0, 0, ⟨SQLITE_NOMEM, get_error_category⟩⟩]) :=
  ⟨⟨by decide, by decide,
    (open_failure_carries_status (engine_const 14 5) database.init
      ⟨0, "/nonexistent/db", 0⟩).1 (by decide) (by decide)⟩,
   ⟨by decide,
    (open_failure_carries_status (engine_const 1 NULL) database.init ⟨0, "x", 0⟩).2
      (by decide)⟩⟩

/-- C6: when the engine's open call reports `SQLITE_OK` with a null handle, the error
code posted by `__async_open` is `SQLITE_NOMEM` in the category of
`get_error_category()`; it is an error, and it differs from the code posted for any
open that returns `SQLITE_OK` with a non-null handle. -/
theorem open_null_handle_out_of_resources (eng : engine) (s : database) (t : task)
    (_hok : (eng s.trace t.url).1 = SQLITE_OK) (hnull : (eng s.trace t.url).2 = NULL) :
    (s.__async_open eng t).io_service_.handlers
      = s.io_service_.handlers ++ [⟨t.id, t.handler, ⟨SQLITE_NOMEM, get_error_category⟩⟩] ∧
    (error_code.mk SQLITE_NOMEM get_error_category).failed = true ∧
    ∀ (eng2 : engine) (s2 : database) (t2 : task),
      (eng2 s2.trace t2.url).1 = SQLITE_OK → (eng2 s2.trace t2.url).2 ≠ NULL →
      ∀ c ∈ (s2.__async_open eng2 t2).io_service_.handlers, c ∉ s2.io_service_.handlers →
        c.ec.failed = false ∧ c.ec ≠ ⟨SQLITE_NOMEM, get_error_category⟩ := by
  refine ⟨?_, by decide, ?_⟩
  · simp [__async_open_handlers, posted_completion, open_error_code, error_code.assign, hnull]
  · intro eng2 s2 t2 h1 h2 c hc hnot
    rw [__async_open_handlers] at hc
    rcases List.mem_append.mp hc with hc | hc
    · exact absurd hc hnot
    · rw [List.mem_singleton] at hc
      subst hc
      simp [posted_completion, open_error_code, error_code.assign, h1, h2,
        error_code.default, error_code.failed, SQLITE_NOMEM]

theorem open_null_handle_out_of_resources_witness :
    (database.init.__async_open (engine_const SQLITE_OK NULL) ⟨0, ":memory:", 0⟩).io_service_.handlers
      = [] ++ [⟨0, 0, ⟨SQLITE_NOMEM, get_error_category⟩⟩] :=
  (open_null_handle_out_of_resources (engine_const SQLITE_OK NULL) database.init
    ⟨0, ":memory:", 0⟩ (by decide) (by decide)).1

/-- C8: after any execution of the open task `conn_` owns exactly the handle the
engine returned from that call, whatever was stored before and whatever the outcome;
the handle owned before, if any, has been given to `sqlite3_close`. -/
theorem async_open_task_replaces_conn (eng : engine) (s : database) (t : task) :
    (s.__async_open eng t).conn_ = some (eng s.trace t.url).2 ∧
    (s.__async_open eng t).conn_get = (eng s.trace t.url).2 ∧
    closed_handles (s.__async_open eng t).trace = closed_handles s.trace ++ s.conn_.toList := by
  refine ⟨__async_open_conn eng s t, ?_, ?_⟩
  · simp [database.conn_get, __async_open_conn]
  · simp [__async_open_trace, closed_handles_append, closed_handles, closed_handles_map_close]

/-- C9 (as stated, refuted): a request is enqueued and the object is destroyed before
the processing thread has taken the task.  The state is reachable, it lies after the
return of `async_open`, the completion of the request has not been invoked, and the
caller's io_service has no outstanding work: no live work object, no queued
completion. -/
theorem destroy_leaves_no_outstanding_work :
    (0 : Nat) ∈ enqueued_ids (run (engine_const SQLITE_OK 5)
      [event.async_open ":memory:" 0, event.destroy_stop, event.destroy_join,
       event.destroy_conn, event.destroy_processing_service]).trace ∧
    (0 : Nat) ∉ invoked_ids (run (engine_const SQLITE_OK 5)
      [event.async_open ":memory:" 0, event.destroy_stop, event.destroy_join,
       event.destroy_conn, event.destroy_processing_service]).trace ∧
    (run (engine_const SQLITE_OK 5)
      [event.async_open ":memory:" 0, event.destroy_stop, event.destroy_join,
       event.destroy_conn, event.destroy_processing_service]).io_service_.outstanding = 0 := by
  decide

/-- C9 (amended): `async_open` acquires the work object on the caller's io_service
before it enqueues the task, and the body of `__async_open` posts the completion
without releasing it, so in every reachable state the live work objects are those of
the queued tasks and of the task in progress.  Hence in every reachable state after
the enqueue of a request and before the invocation of its completion, the caller's
io_service has at least one unit of outstanding work, provided the destructor of the
database object has not finished or the processing thread had taken the task of the
request from the queue. -/
theorem keep_alive_unless_abandoned (eng : engine) (evs : List event) :
    (∀ (s : database) (url : String) (handler : Nat), (s.async_open url handler).trace
      = s.trace ++ [obs.work_acquired s.next_id, obs.enqueued s.next_id url]) ∧
    (∀ (s : database) (t : task),
      (s.__async_open eng t).io_service_.work = s.io_service_.work) ∧
    (run eng evs).io_service_.work = (run eng evs).processing_service_.handlers.length
      + (if (run eng evs).executing.isSome then 1 else 0) ∧
    (∀ id : Nat,
      id ∈ enqueued_ids (run eng evs).trace →
      id ∉ invoked_ids (run eng evs).trace →
      ((run eng evs).destroyed = false ∨ id ∈ dequeued_ids (run eng evs).trace) →
      1 ≤ (run eng evs).io_service_.outstanding) := by
  have hI := Inv_run eng evs
  refine ⟨fun s url handler => by simp [database.async_open],
    fun s t => __async_open_work eng s t, hI.work, ?_⟩
  intro id henq hnot hcond
  have hw := hI.work
  unfold io_service.outstanding
  by_cases hpo : id ∈ posted_ids (run eng evs).trace
  · rw [← hI.delivered] at hpo
    rcases List.mem_append.mp hpo with h1 | h1
    · exact absurd h1 hnot
    · have : 0 < ((run eng evs).io_service_.handlers.map completion.id).length :=
        List.length_pos_of_mem h1
      simp at this
      omega
  · by_cases hde : id ∈ dequeued_ids (run eng evs).trace
    · have hbusy : (run eng evs).executing.isSome = true := by
        apply busy_of_pending
        rw [hI.deq] at hde
        rcases List.mem_append.mp hde with h1 | h1
        · rw [hI.opn] at h1
          rcases List.mem_append.mp h1 with h2 | h2
          · exact absurd h2 hpo
          · exact Or.inr h2
        · exact Or.inl h1
      rw [hbusy] at hw
      simp at hw
      omega
    · rcases hcond with hd | hd
      · have hl : (run eng evs).life ≠ lifetime.destroyed := by
          simpa [database.destroyed] using hd
        rw [← hI.queue hl] at henq
        rcases List.mem_append.mp henq with h1 | h1
        · exact absurd h1 hde
        · have : 0 < ((run eng evs).processing_service_.handlers.map task.id).length :=
            List.length_pos_of_mem h1
          simp at this
          omega
      · exact absurd hd hde

theorem keep_alive_unless_abandoned_witness :
    (0 : Nat) ∈ enqueued_ids (run (engine_const SQLITE_OK 5)
      [event.async_open ":memory:" 0, event.worker_take, event.destroy_stop,
       event.worker_open]).trace ∧
    (0 : Nat) ∉ invoked_ids (run (engine_const SQLITE_OK 5)
      [event.async_open ":memory:" 0, event.worker_take, event.destroy_stop,
       event.worker_open]).trace ∧
    (run (engine_const SQLITE_OK 5)
      [event.async_open ":memory:" 0, event.worker_take, event.destroy_stop,
       event.worker_open]).destroyed = false ∧
    1 ≤ (run (engine_const SQLITE_OK 5)
      [event.async_open ":memory:" 0, event.worker_take, event.destroy_stop,
       event.worker_open]).io_service_.outstanding :=
  ⟨by decide, by decide, by decide,
   (keep_alive_unless_abandoned (engine_const SQLITE_OK 5)
      [event.async_open ":memory:" 0, event.worker_take, event.destroy_stop,
       event.worker_open]).2.2.2 0 (by decide) (by decide) (Or.inl (by decide))⟩

/-- C10: in every reachable state in which the destructor has finished, the handles
given to `sqlite3_close` are exactly the handles returned by the engine's open calls,
one close for each open and in the same order, so each non-null handle returned by an
open is closed exactly once (by the open that replaces it or by the destructor), and
`conn_` is empty.  The destructor does finish: after any schedule, `stop`, the rest of
the task in progress, `join` and the destruction of the members lead to such a state.
And the destructor closes the handle that is left only in a state where the
processing service was stopped and then the thread joined, the thread being out of
any task. -/
theorem every_handle_closed_once (eng : engine) (evs : List event) :
    ((run eng evs).destroyed = true →
      closed_handles (run eng evs).trace = opened_handles (run eng evs).trace ∧
      (∀ h : handle, h ≠ NULL →
        (closed_handles (run eng evs).trace).count h
          = (opened_handles (run eng evs).trace).count h) ∧
      (run eng evs).conn_ = none) ∧
    (run eng (evs ++ teardown)).destroyed = true ∧
    closed_handles (run eng (evs ++ teardown)).trace
      = opened_handles (run eng (evs ++ teardown)).trace ∧
    (∀ h : handle, h ≠ NULL →
      (closed_handles (run eng (evs ++ teardown)).trace).count h
        = (opened_handles (run eng (evs ++ teardown)).trace).count h) ∧
    (run eng (evs ++ teardown)).conn_ = none ∧
    ((step eng (run eng evs) event.destroy_conn).trace = (run eng evs).trace ∨
      ((step eng (run eng evs) event.destroy_conn).trace
          = (run eng evs).trace ++ (run eng evs).conn_.toList.map obs.sqlite3_close_call ∧
        (run eng evs).processing_thread_ = worker_pc.idle ∧
        ∃ a b c, (run eng evs).trace = a ++ [obs.stopped] ++ b ++ [obs.joined] ++ c)) := by
  have key : ∀ s : database, Inv s → s.destroyed = true →
      closed_handles s.trace = opened_handles s.trace ∧ s.conn_ = none := by
    intro s hI hd
    have hl : s.life = lifetime.destroyed := by simpa [database.destroyed] using hd
    have hconn := hI.conn_inv (Or.inr hl)
    have hpc := hI.joined_inv (by simp [database.joined, hl])
    have hh := hI.handles
    rw [hconn, hpc] at hh
    exact ⟨by simpa [worker_pc.pending_reset] using hh.symm, hconn⟩
  have htd : (run eng (evs ++ teardown)).destroyed = true := by
    rw [run_append]
    simp [database.destroyed, teardown_destroys]
  obtain ⟨k1, k2⟩ := key _ (Inv_run eng (evs ++ teardown)) htd
  refine ⟨?_, htd, k1, fun h _ => by rw [k1], k2, ?_⟩
  · intro hd
    obtain ⟨j1, j2⟩ := key _ (Inv_run eng evs) hd
    exact ⟨j1, fun h _ => by rw [j1], j2⟩
  · simp only [step]
    split
    · rename_i hl
      right
      have hI := Inv_run eng evs
      have hj : (run eng evs).joined = true := by simp [database.joined, hl]
      exact ⟨by simp [database.conn_destroy], hI.joined_inv hj, hI.seen_joined hj⟩
    · exact Or.inl rfl

theorem every_handle_closed_once_witness :
    (run (engine_const SQLITE_OK 5)
      ([event.async_open ":memory:" 0, event.worker_take, event.worker_open,
        event.worker_reset] ++ teardown)).destroyed = true ∧
    closed_handles (run (engine_const SQLITE_OK 5)
      ([event.async_open ":memory:" 0, event.worker_take, event.worker_open,
        event.worker_reset] ++ teardown)).trace = [5] ∧
    closed_handles (run (engine_const SQLITE_OK 5)
      ([event.async_open ":memory:" 0, event.worker_take, event.worker_open,
        event.worker_reset] ++ teardown)).trace
      = opened_handles (run (engine_const SQLITE_OK 5)
      ([event.async_open ":memory:" 0, event.worker_take, event.worker_open,
        event.worker_reset] ++ teardown)).trace :=
  ⟨by decide, by decide,
   ((every_handle_closed_once (engine_const SQLITE_OK 5)
      ([event.async_open ":memory:" 0, event.worker_take, event.worker_open,
        event.worker_reset] ++ teardown)).1 (by decide)).1⟩

end services.sqlite
